import Mathlib

/-!
# Layout compiler and renderer of `appenders/layout_utils.go`

A shallow embedding of `ParseLayout`, `ToLogMessage` and `addPiece`.

Modelling conventions.

* A Go `string` is a Lean `String`: a sequence of Unicode scalar values stored as
  UTF-8.  Indices into a layout (`i`, `startIdx`) are *byte* offsets, exactly as in
  Go, and `layout[a:b]` is `goSlice layout a b`, which faults when the bounds are out
  of range.  Go strings holding ill-formed UTF-8 are outside the model.
* `for i, rune := range layout` visits the characters of the layout from left to
  right, `i` being the byte offset of the character (`rangeLoop`).
* The Go constants declared with `iota` are integer constants.
* `ParseLayout` returns the Go pair `(template, error)`; `nil` for a template is the
  empty list, `nil` for an error is `none`.  A run-time fault (slice bounds, index out
  of range) is the outer `none`.
* `log4g.LogEvent`, `log4g.LevelNames()`, `time.Time.Format` and `fmt.Sprint` are not
  part of the file; the event type is parametric in the timestamp and payload types,
  and the level-name table and the two formatting functions are fields of `Runtime`.
-/

namespace appenders

/-! ## Constants -/

/-- Layout piece type `lpText`. -/
def lpText : Int := 0
/-- Layout piece type `lpLoggerName`. -/
def lpLoggerName : Int := 1
/-- Layout piece type `lpDate`. -/
def lpDate : Int := 2
/-- Layout piece type `lpLogLevel`. -/
def lpLogLevel : Int := 3
/-- Layout piece type `lpMessage`. -/
def lpMessage : Int := 4

/-- Parse state `psText`. -/
def psText : Int := 0
/-- Parse state `psPiece`. -/
def psPiece : Int := 1
/-- Parse state `psDateStart`. -/
def psDateStart : Int := 2
/-- Parse state `psDate`. -/
def psDate : Int := 3

/-! ## Data model -/

/-- The Go struct `layoutPiece`. -/
structure layoutPiece where
  value : String
  pieceType : Int
  deriving DecidableEq, Repr

/-- The Go type `LayoutTemplate`, a slice of pieces. -/
abbrev LayoutTemplate := List layoutPiece

/-- The fields of `log4g.LogEvent` read by the renderer. -/
structure LogEvent (τ π : Type) where
  LoggerName : String
  Timestamp : τ
  Level : Int
  Payload : π

/-- What the renderer takes from outside the file: the package variable
`logLevelNames` (initialised from `log4g.LevelNames()`), `time.Time.Format` and
`fmt.Sprint`. -/
structure Runtime (τ π : Type) where
  logLevelNames : List String
  Format : τ → String → String
  Sprint : π → String

/-! ## `addPiece` -/

/-- The Go function `addPiece`: `len(str) == 0` returns the template as it is, anything
else is appended. -/
def addPiece (str : String) (pieceType : Int) (template : LayoutTemplate) : LayoutTemplate :=
  if str.utf8ByteSize = 0 then template
  else template ++ [{ value := str, pieceType := pieceType }]

/-! ## `ParseLayout` -/

/-- The Go slice expression `s[a:b]` on a string: a run-time fault unless
`a ≤ b ≤ len(s)`, otherwise the bytes from offset `a` up to offset `b`. -/
def goSlice (s : String) (a b : Nat) : Option String :=
  if a ≤ b ∧ b ≤ s.utf8ByteSize then some (s.extract ⟨a⟩ ⟨b⟩) else none

/-- The local variables of `ParseLayout` that live across loop iterations. -/
structure ParseVars where
  layoutTemplate : LayoutTemplate
  state : Int
  startIdx : Nat
  deriving DecidableEq, Repr

/-- What one iteration of the loop of `ParseLayout` does: go on with updated
variables, execute a `return`, or fault. -/
inductive Flow where
  | next (v : ParseVars)
  | ret (template : LayoutTemplate) (err : Option String)
  | fault
  deriving DecidableEq, Repr

/-- The body of the `for i, rune := range layout` loop of `ParseLayout`. -/
def loopBody (layout : String) (v : ParseVars) (i : Nat) (rune : Char) : Flow :=
  if v.state = psText then
    if rune = '%' then
      match goSlice layout v.startIdx i with
      | none => .fault
      | some str =>
        .next { v with layoutTemplate := addPiece str lpText v.layoutTemplate, state := psPiece }
    else .next v
  else if v.state = psPiece then
    -- `state = psText; startIdx = i + 1`, then the inner switch
    if rune = 'c' then
      .next { layoutTemplate := addPiece "c" lpLoggerName v.layoutTemplate,
              state := psText, startIdx := i + 1 }
    else if rune = 'd' then
      .next { v with state := psDateStart, startIdx := i + 1 }
    else if rune = 'p' then
      .next { layoutTemplate := addPiece "p" lpLogLevel v.layoutTemplate,
              state := psText, startIdx := i + 1 }
    else if rune = 'm' then
      .next { layoutTemplate := addPiece "m" lpMessage v.layoutTemplate,
              state := psText, startIdx := i + 1 }
    else if rune = '%' then
      .next { v with state := psText, startIdx := i }
    else
      .ret [] (some ("Unknown layout identifier " ++ String.singleton rune))
  else if v.state = psDateStart then
    if rune ≠ '{' then
      .ret [] (some ("%d should follow by date format in braces like this: %d\x7b...\x7d, but found "
        ++ String.singleton rune))
    else .next { v with startIdx := i + 1, state := psDate }
  else if v.state = psDate then
    if rune = '}' then
      match goSlice layout v.startIdx i with
      | none => .fault
      | some str =>
        .next { layoutTemplate := addPiece str lpDate v.layoutTemplate,
                state := psText, startIdx := i + 1 }
    else .next v
  else .next v

/-- The loop `for i, rune := range layout`: `runes` are the characters not yet
visited and `i` is the byte offset of the first of them.  The result is the variables
at loop exit, or the `return` or fault that left the loop early. -/
def rangeLoop (layout : String) : Nat → List Char → ParseVars → Flow
  | _, [], v => .next v
  | i, rune :: runes, v =>
    match loopBody layout v i rune with
    | .next v1 => rangeLoop layout (i + rune.utf8Size) runes v1
    | .ret t e => .ret t e
    | .fault => .fault

/-- The Go function `ParseLayout`.  `none` is a run-time fault; `some (t, e)` is the
returned pair. -/
def ParseLayout (layout : String) : Option (LayoutTemplate × Option String) :=
  match rangeLoop layout 0 layout.data
      { layoutTemplate := [], state := psText, startIdx := 0 } with
  | .fault => none
  | .ret t e => some (t, e)
  | .next v =>
    if v.state ≠ psText then
      some ([], some "Unexpected end of layout, cannot parse it properly")
    else
      match goSlice layout v.startIdx layout.utf8ByteSize with
      | none => none
      | some str => some (addPiece str lpText v.layoutTemplate, none)

/-! ## `ToLogMessage` -/

/-- The index expression `logLevelNames[logEvent.Level]`: a run-time fault unless
`0 ≤ Level < len(logLevelNames)`. -/
def levelName (names : List String) (level : Int) : Option String :=
  if 0 ≤ level then names[level.toNat]? else none

/-- The loop of `ToLogMessage` over the pieces still to render, `buf` being the
content of the buffer so far. -/
def renderLoop {τ π : Type} (rt : Runtime τ π) (logEvent : LogEvent τ π) :
    List layoutPiece → String → Option String
  | [], buf => some buf
  | piece :: rest, buf =>
    if piece.pieceType = lpText then
      renderLoop rt logEvent rest (buf ++ piece.value)
    else if piece.pieceType = lpLoggerName then
      renderLoop rt logEvent rest (buf ++ logEvent.LoggerName)
    else if piece.pieceType = lpDate then
      renderLoop rt logEvent rest (buf ++ rt.Format logEvent.Timestamp piece.value)
    else if piece.pieceType = lpLogLevel then
      match levelName rt.logLevelNames logEvent.Level with
      | none => none
      | some name => renderLoop rt logEvent rest (buf ++ name)
    else if piece.pieceType = lpMessage then
      renderLoop rt logEvent rest (buf ++ rt.Sprint logEvent.Payload)
    else renderLoop rt logEvent rest buf

/-- The Go function `ToLogMessage`; `none` is a run-time fault. -/
def ToLogMessage {τ π : Type} (rt : Runtime τ π) (logEvent : LogEvent τ π)
    (template : LayoutTemplate) : Option String :=
  renderLoop rt logEvent template ""

/-! ## A character-level view of the parser

`scan` is the same state machine as `ParseLayout`, carrying the characters of the
current run instead of the byte offsets that delimit it.  `ParseLayout_eq_scan`
shows that the two agree on every layout. -/

/-- State of the parser together with the characters seen since `startIdx`. -/
inductive Mode where
  | text (run : List Char)
  | piece
  | dateStart
  | date (run : List Char)
  deriving DecidableEq, Repr

/-- The parser as a function of the characters still to read. -/
def scan : Mode → LayoutTemplate → List Char → LayoutTemplate × Option String
  | .text run, t, [] => (addPiece ⟨run⟩ lpText t, none)
  | .piece, _, [] => ([], some "Unexpected end of layout, cannot parse it properly")
  | .dateStart, _, [] => ([], some "Unexpected end of layout, cannot parse it properly")
  | .date _, _, [] => ([], some "Unexpected end of layout, cannot parse it properly")
  | .text run, t, c :: cs =>
    if c = '%' then scan .piece (addPiece ⟨run⟩ lpText t) cs
    else scan (.text (run ++ [c])) t cs
  | .piece, t, c :: cs =>
    if c = 'c' then scan (.text []) (addPiece "c" lpLoggerName t) cs
    else if c = 'd' then scan .dateStart t cs
    else if c = 'p' then scan (.text []) (addPiece "p" lpLogLevel t) cs
    else if c = 'm' then scan (.text []) (addPiece "m" lpMessage t) cs
    else if c = '%' then scan (.text ['%']) t cs
    else ([], some ("Unknown layout identifier " ++ String.singleton c))
  | .dateStart, t, c :: cs =>
    if c ≠ '{' then
      ([], some ("%d should follow by date format in braces like this: %d\x7b...\x7d, but found "
        ++ String.singleton c))
    else scan (.date []) t cs
  | .date run, t, c :: cs =>
    if c = '}' then scan (.text []) (addPiece ⟨run⟩ lpDate t) cs
    else scan (.date (run ++ [c])) t cs

/-- How the variables of `ParseLayout` represent a mode once the characters `done`
have been read. -/
def Represents (done : List Char) (v : ParseVars) : Mode → Prop
  | .text run => v.state = psText ∧ ∃ p, done = p ++ run ∧ v.startIdx = String.utf8Len p
  | .piece => v.state = psPiece
  | .dateStart => v.state = psDateStart
  | .date run => v.state = psDate ∧ ∃ p, done = p ++ run ∧ v.startIdx = String.utf8Len p

/-- The part of `ParseLayout` after the loop. -/
def afterLoop (layout : String) : Flow → Option (LayoutTemplate × Option String)
  | .fault => none
  | .ret t e => some (t, e)
  | .next v =>
    if v.state ≠ psText then
      some ([], some "Unexpected end of layout, cannot parse it properly")
    else
      match goSlice layout v.startIdx layout.utf8ByteSize with
      | none => none
      | some str => some (addPiece str lpText v.layoutTemplate, none)

/-! ## The layout grammar -/

/-- One token of the layout grammar: a character other than `%`, one of `%c`, `%p`,
`%m`, `%%`, or `%d{` followed by characters other than `}` followed by `}`. -/
inductive Token : List Char → Prop
  | lit (c : Char) (h : c ≠ '%') : Token [c]
  | loggerName : Token ['%', 'c']
  | level : Token ['%', 'p']
  | message : Token ['%', 'm']
  | percent : Token ['%', '%']
  | date (f : List Char) (h : '}' ∉ f) : Token ('%' :: 'd' :: '{' :: (f ++ ['}']))

/-- The layouts of the grammar: concatenations of zero or more tokens. -/
def Grammar (cs : List Char) : Prop :=
  ∃ toks : List (List Char), (∀ tok ∈ toks, Token tok) ∧ cs = toks.flatten

/-- What the rest of the layout has to be for the parser to succeed from a mode. -/
def Demands : Mode → List Char → Prop
  | .text _, cs => Grammar cs
  | .piece, cs => Grammar ('%' :: cs)
  | .dateStart, cs => Grammar ('%' :: 'd' :: cs)
  | .date _, cs => ∃ f rest, cs = f ++ '}' :: rest ∧ '}' ∉ f ∧ Grammar rest

/-! ## Sample data -/

/-- A level-name table, a timestamp formatter and a payload printer to run the
renderer on: timestamps are numbers, payloads are strings printed as they are. -/
def sampleRuntime : Runtime Nat String where
  logLevelNames := ["FATAL", "ERROR", "WARN", "INFO", "DEBUG", "TRACE"]
  Format := fun ts pattern => pattern ++ "@" ++ toString ts
  Sprint := fun payload => payload

/-- An event of logger `root` at the level named `INFO` in `sampleRuntime`. -/
def sampleEvent : LogEvent Nat String where
  LoggerName := "root"
  Timestamp := 7
  Level := 3
  Payload := "boot complete"

/-- The layout obtained from the characters `cs` by writing `%%` for each `%`. -/
def escapeChars : List Char → List Char
  | [] => []
  | c :: cs => if c = '%' then '%' :: '%' :: escapeChars cs else c :: escapeChars cs

/-- The layout obtained from `s` by replacing each `%` with `%%`. -/
def escapePercent (s : String) : String := ⟨escapeChars s.data⟩

/-! ## `ParseLayout` and `scan` agree -/

theorem ParseLayout_eq_afterLoop (layout : String) :
    ParseLayout layout = afterLoop layout (rangeLoop layout 0 layout.data
      { layoutTemplate := [], state := psText, startIdx := 0 }) := by
  unfold ParseLayout afterLoop
  rfl

/-- Slicing at the byte offsets of two character boundaries gives the characters in
between, without fault. -/
theorem goSlice_of_boundaries (p run cs : List Char) :
    goSlice ⟨p ++ run ++ cs⟩ (String.utf8Len p) (String.utf8Len p + String.utf8Len run)
      = some ⟨run⟩ := by
  unfold goSlice
  rw [if_pos, String.extract_of_valid]
  constructor
  · omega
  · simp only [String.utf8ByteSize_mk, String.utf8Len_append]
    omega

theorem rangeLoop_refines (layout : String) :
    ∀ (cs done : List Char) (v : ParseVars) (m : Mode),
      layout.data = done ++ cs → Represents done v m →
      afterLoop layout (rangeLoop layout (String.utf8Len done) cs v)
        = some (scan m v.layoutTemplate cs) := by
  intro cs
  induction cs with
  | nil =>
    intro done v m hl hr
    obtain ⟨d⟩ := layout
    simp only [List.append_nil] at hl
    subst hl
    cases m with
    | text run =>
      obtain ⟨hs, p, hp, hi⟩ := hr
      subst hp
      have := goSlice_of_boundaries p run []
      simp only [List.append_nil] at this
      simp [rangeLoop, afterLoop, scan, hs, hi, this]
    | piece => simp [Represents] at hr; simp [rangeLoop, afterLoop, scan, hr, psPiece, psText]
    | dateStart =>
      simp [Represents] at hr; simp [rangeLoop, afterLoop, scan, hr, psDateStart, psText]
    | date run =>
      obtain ⟨hs, -⟩ := hr
      simp [rangeLoop, afterLoop, scan, hs, psDate, psText]
  | cons c cs ih =>
    intro done v m hl hr
    have hl1 : layout.data = (done ++ [c]) ++ cs := by simp [hl]
    have hlen : String.utf8Len done + c.utf8Size = String.utf8Len (done ++ [c]) := by simp
    have hstart : ∀ x : Char, x.utf8Size = 1 → c = x →
        String.utf8Len done + 1 = String.utf8Len (done ++ [c]) := by
      intro x hx hcx
      rw [← hlen, hcx, hx]
    cases m with
    | text run =>
      obtain ⟨hs, p, hp, hi⟩ := hr
      by_cases hc : c = '%'
      · have hsl : goSlice layout v.startIdx (String.utf8Len done) = some ⟨run⟩ := by
          obtain ⟨d⟩ := layout
          simp only at hl
          subst hl hp
          rw [hi, String.utf8Len_append]
          exact goSlice_of_boundaries p run (c :: cs)
        rw [rangeLoop, loopBody, if_pos hs, if_pos hc, hsl, scan, if_pos hc]
        simp only
        rw [hlen]
        refine ih (done ++ [c]) _ .piece hl1 ?_
        exact rfl
      · rw [rangeLoop, loopBody, if_pos hs, if_neg hc, scan, if_neg hc]
        simp only
        rw [hlen]
        exact ih (done ++ [c]) v (.text (run ++ [c])) hl1 ⟨hs, p, by simp [hp], hi⟩
    | piece =>
      have hs : v.state = psPiece := hr
      have h10 : ¬ v.state = psText := by rw [hs]; decide
      rw [rangeLoop, loopBody, if_neg h10, if_pos hs, scan]
      by_cases h1 : c = 'c'
      · rw [if_pos h1, if_pos h1]
        simp only
        rw [hlen, hstart 'c' rfl h1]
        refine ih (done ++ [c]) _ (.text []) hl1 ⟨rfl, done ++ [c], by simp, rfl⟩
      rw [if_neg h1, if_neg h1]
      by_cases h2 : c = 'd'
      · rw [if_pos h2, if_pos h2]
        simp only
        rw [hlen]
        refine ih (done ++ [c]) _ .dateStart hl1 ?_
        exact rfl
      rw [if_neg h2, if_neg h2]
      by_cases h3 : c = 'p'
      · rw [if_pos h3, if_pos h3]
        simp only
        rw [hlen, hstart 'p' rfl h3]
        refine ih (done ++ [c]) _ (.text []) hl1 ⟨rfl, done ++ [c], by simp, rfl⟩
      rw [if_neg h3, if_neg h3]
      by_cases h4 : c = 'm'
      · rw [if_pos h4, if_pos h4]
        simp only
        rw [hlen, hstart 'm' rfl h4]
        refine ih (done ++ [c]) _ (.text []) hl1 ⟨rfl, done ++ [c], by simp, rfl⟩
      rw [if_neg h4, if_neg h4]
      by_cases h5 : c = '%'
      · rw [if_pos h5, if_pos h5]
        simp only
        rw [hlen]
        refine ih (done ++ [c]) _ (.text ['%']) hl1 ⟨rfl, done, by rw [h5], rfl⟩
      · rw [if_neg h5, if_neg h5]
        rfl
    | dateStart =>
      have hs : v.state = psDateStart := hr
      have h20 : ¬ v.state = psText := by rw [hs]; decide
      have h21 : ¬ v.state = psPiece := by rw [hs]; decide
      rw [rangeLoop, loopBody, if_neg h20, if_neg h21, if_pos hs, scan]
      by_cases h1 : c = '{'
      · rw [if_neg (not_not.mpr h1), if_neg (not_not.mpr h1)]
        simp only
        rw [hlen, hstart '{' rfl h1]
        refine ih (done ++ [c]) _ (.date []) hl1 ⟨rfl, done ++ [c], by simp, rfl⟩
      · rw [if_pos h1, if_pos h1]
        rfl
    | date run =>
      obtain ⟨hs, p, hp, hi⟩ := hr
      have h30 : ¬ v.state = psText := by rw [hs]; decide
      have h31 : ¬ v.state = psPiece := by rw [hs]; decide
      have h32 : ¬ v.state = psDateStart := by rw [hs]; decide
      rw [rangeLoop, loopBody, if_neg h30, if_neg h31, if_neg h32, if_pos hs, scan]
      by_cases hc : c = '}'
      · have hsl : goSlice layout v.startIdx (String.utf8Len done) = some ⟨run⟩ := by
          obtain ⟨d⟩ := layout
          simp only at hl
          subst hl hp
          rw [hi, String.utf8Len_append]
          exact goSlice_of_boundaries p run (c :: cs)
        rw [if_pos hc, if_pos hc, hsl]
        simp only
        rw [hlen, hstart '}' rfl hc]
        refine ih (done ++ [c]) _ (.text []) hl1 ⟨rfl, done ++ [c], by simp, rfl⟩
      · rw [if_neg hc, if_neg hc]
        simp only
        rw [hlen]
        exact ih (done ++ [c]) v (.date (run ++ [c])) hl1 ⟨hs, p, by simp [hp], hi⟩

/-- The byte-offset parser and the character-level parser agree; in particular
`ParseLayout` never faults. -/
theorem ParseLayout_eq_scan (layout : String) :
    ParseLayout layout = some (scan (.text []) [] layout.data) := by
  rw [ParseLayout_eq_afterLoop]
  exact rangeLoop_refines layout layout.data [] _ (.text []) rfl ⟨rfl, [], rfl, rfl⟩

/-! ## Facts about `addPiece` and the renderer -/

theorem utf8ByteSize_eq_zero_iff (str : String) : str.utf8ByteSize = 0 ↔ str = "" := by
  obtain ⟨d⟩ := str
  rw [String.utf8ByteSize_mk, String.utf8Len_eq_zero]
  constructor
  · intro h; rw [h]
  · intro h; exact congrArg String.data h

theorem addPiece_empty (pieceType : Int) (template : LayoutTemplate) :
    addPiece "" pieceType template = template := by
  simp [addPiece, utf8ByteSize_eq_zero_iff]

theorem addPiece_nonempty (str : String) (pieceType : Int) (template : LayoutTemplate)
    (h : str ≠ "") :
    addPiece str pieceType template = template ++ [{ value := str, pieceType := pieceType }] := by
  simp [addPiece, utf8ByteSize_eq_zero_iff, h]

theorem mk_ne_empty (cs : List Char) (h : cs ≠ []) : (⟨cs⟩ : String) ≠ "" := by
  intro h1
  exact h (congrArg String.data h1)

/-- Rendering after a literal-text piece has been added with `addPiece`: the text is
appended to what the pieces before it render to. -/
theorem renderLoop_addPiece_text {τ π : Type} (rt : Runtime τ π) (logEvent : LogEvent τ π)
    (str : String) :
    ∀ (template : LayoutTemplate) (buf : String),
      renderLoop rt logEvent (addPiece str lpText template) buf
        = (renderLoop rt logEvent template buf).map (fun out => out ++ str) := by
  by_cases hs : str = ""
  · subst hs
    intro template buf
    rw [addPiece_empty]
    cases renderLoop rt logEvent template buf <;> simp
  · intro template
    rw [addPiece_nonempty _ _ _ hs]
    induction template with
    | nil => intro buf; simp [renderLoop]
    | cons piece rest ih =>
      intro buf
      simp only [List.cons_append, renderLoop]
      split_ifs
      · exact ih _
      · exact ih _
      · exact ih _
      · cases levelName rt.logLevelNames logEvent.Level with
        | none => rfl
        | some name => exact ih _
      · exact ih _
      · exact ih _

/-! ## Facts about `scan` -/

/-- A run of literal text up to the end of the layout. -/
theorem scan_text_run (t : LayoutTemplate) :
    ∀ (cs run : List Char), '%' ∉ cs →
      scan (.text run) t cs = (addPiece ⟨run ++ cs⟩ lpText t, none) := by
  intro cs
  induction cs with
  | nil => intro run _; simp [scan]
  | cons c cs ih =>
    intro run h
    have hc : c ≠ '%' := fun hc => h (by simp [hc])
    have hcs : '%' ∉ cs := fun hcs => h (List.mem_cons_of_mem _ hcs)
    rw [scan, if_neg hc, ih _ hcs]
    simp

/-- Inside `%d{`: characters other than `}` are accumulated, the first `}` emits the
date piece. -/
theorem scan_date_run (t : LayoutTemplate) (rest : List Char) :
    ∀ (f run : List Char), '}' ∉ f →
      scan (.date run) t (f ++ '}' :: rest)
        = scan (.text []) (addPiece ⟨run ++ f⟩ lpDate t) rest := by
  intro f
  induction f with
  | nil => intro run _; simp [scan]
  | cons c f ih =>
    intro run h
    have hc : c ≠ '}' := fun hc => h (by simp [hc])
    have hf : '}' ∉ f := fun hf => h (List.mem_cons_of_mem _ hf)
    rw [List.cons_append, scan, if_neg hc, ih _ hf]
    simp

/-- Inside `%d{` with no `}` to come: the end of the layout is an error. -/
theorem scan_date_unterminated (t : LayoutTemplate) :
    ∀ (f run : List Char), '}' ∉ f →
      scan (.date run) t f
        = ([], some "Unexpected end of layout, cannot parse it properly") := by
  intro f
  induction f with
  | nil => intro run _; simp [scan]
  | cons c f ih =>
    intro run h
    have hc : c ≠ '}' := fun hc => h (by simp [hc])
    have hf : '}' ∉ f := fun hf => h (List.mem_cons_of_mem _ hf)
    rw [scan, if_neg hc, ih _ hf]

/-- An error comes with a nil template. -/
theorem scan_error_template :
    ∀ (cs : List Char) (m : Mode) (t : LayoutTemplate),
      (scan m t cs).2 ≠ none → (scan m t cs).1 = [] := by
  intro cs
  induction cs with
  | nil => intro m t h; cases m <;> simp_all [scan]
  | cons c cs ih =>
    intro m t
    cases m with
    | text run => rw [scan]; split_ifs <;> exact ih _ _
    | piece =>
      rw [scan]
      split_ifs
      · exact ih _ _
      · exact ih _ _
      · exact ih _ _
      · exact ih _ _
      · exact ih _ _
      · intro _; rfl
    | dateStart =>
      rw [scan]
      split_ifs
      · intro _; rfl
      · exact ih _ _
    | date run => rw [scan]; split_ifs <;> exact ih _ _

/-- After an accepted prefix the parser is in state `psText`, with some run and some
template, and goes on from there. -/
theorem scan_prefix :
    ∀ (pre : List Char) (m : Mode) (t : LayoutTemplate), (scan m t pre).2 = none →
      ∃ run1 t1, ∀ cs, scan m t (pre ++ cs) = scan (.text run1) t1 cs := by
  intro pre
  induction pre with
  | nil =>
    intro m t h
    cases m with
    | text run => exact ⟨run, t, fun cs => rfl⟩
    | piece => simp [scan] at h
    | dateStart => simp [scan] at h
    | date run => simp [scan] at h
  | cons c pre ih =>
    intro m t
    cases m with
    | text run =>
      simp only [List.cons_append]
      rw [scan]
      by_cases hc : c = '%'
      · simp only [scan, if_pos hc]; exact ih _ _
      · simp only [scan, if_neg hc]; exact ih _ _
    | piece =>
      simp only [List.cons_append]
      rw [scan]
      by_cases h1 : c = 'c'
      · simp only [scan, if_pos h1]; exact ih _ _
      by_cases h2 : c = 'd'
      · simp only [scan, if_neg h1, if_pos h2]; exact ih _ _
      by_cases h3 : c = 'p'
      · simp only [scan, if_neg h1, if_neg h2, if_pos h3]; exact ih _ _
      by_cases h4 : c = 'm'
      · simp only [scan, if_neg h1, if_neg h2, if_neg h3, if_pos h4]; exact ih _ _
      by_cases h5 : c = '%'
      · simp only [scan, if_neg h1, if_neg h2, if_neg h3, if_neg h4, if_pos h5]; exact ih _ _
      · simp only [scan, if_neg h1, if_neg h2, if_neg h3, if_neg h4, if_neg h5]
        intro h; simp at h
    | dateStart =>
      simp only [List.cons_append]
      rw [scan]
      by_cases h1 : c = '{'
      · simp only [scan, if_neg (not_not.mpr h1)]; exact ih _ _
      · simp only [scan, if_pos h1]
        intro h; simp at h
    | date run =>
      simp only [List.cons_append]
      rw [scan]
      by_cases hc : c = '}'
      · simp only [scan, if_pos hc]; exact ih _ _
      · simp only [scan, if_neg hc]; exact ih _ _

/-- The accepted-prefix fact for `ParseLayout`. -/
theorem ParseLayout_prefix (pre : String) (h : ∃ t, ParseLayout pre = some (t, none)) :
    ∃ run1 t1, ∀ rest : String,
      ParseLayout (pre ++ rest) = some (scan (.text run1) t1 rest.data) := by
  obtain ⟨t, ht⟩ := h
  rw [ParseLayout_eq_scan] at ht
  have h2 : (scan (.text []) [] pre.data).2 = none := by
    rw [Option.some.inj ht]
  obtain ⟨run1, t1, hk⟩ := scan_prefix pre.data _ _ h2
  exact ⟨run1, t1, fun rest => by rw [ParseLayout_eq_scan, String.data_append, hk]⟩

/-! ## Rendering of compiled layouts -/

/-- Scanning an escaped text never fails, and the template it yields renders to what
the template so far renders to, followed by the current run and the text. -/
theorem scan_escapeChars {τ π : Type} (rt : Runtime τ π) (logEvent : LogEvent τ π) :
    ∀ (cs run : List Char) (t : LayoutTemplate),
      ∃ t1, scan (.text run) t (escapeChars cs) = (t1, none) ∧
        ∀ buf, renderLoop rt logEvent t1 buf
          = (renderLoop rt logEvent t buf).map (fun out => out ++ ⟨run ++ cs⟩) := by
  intro cs
  induction cs with
  | nil =>
    intro run t
    refine ⟨addPiece ⟨run⟩ lpText t, by simp [escapeChars, scan], fun buf => ?_⟩
    rw [renderLoop_addPiece_text, List.append_nil]
  | cons c cs ih =>
    intro run t
    by_cases hc : c = '%'
    · obtain ⟨t1, h1, h2⟩ := ih ['%'] (addPiece ⟨run⟩ lpText t)
      refine ⟨t1, ?_, fun buf => ?_⟩
      · have hp : ¬ ('%' = 'c') ∧ ¬ ('%' = 'd') ∧ ¬ ('%' = 'p') ∧ ¬ ('%' = 'm') := by decide
        rw [escapeChars, if_pos hc, scan, if_pos rfl, scan, if_neg hp.1, if_neg hp.2.1,
          if_neg hp.2.2.1, if_neg hp.2.2.2, if_pos rfl]
        exact h1
      · rw [h2, renderLoop_addPiece_text, hc]
        cases renderLoop rt logEvent t buf with
        | none => rfl
        | some out =>
          simp only [Option.map_some']
          congr 1
          apply String.ext
          simp
    · obtain ⟨t1, h1, h2⟩ := ih (run ++ [c]) t
      refine ⟨t1, ?_, fun buf => ?_⟩
      · rw [escapeChars, if_neg hc, scan, if_neg hc]
        exact h1
      · rw [h2]
        simp

/-! ## The parser accepts exactly the grammar -/

theorem Grammar.nil : Grammar [] := ⟨[], by simp, rfl⟩

theorem Grammar.cons {tok rest : List Char} (ht : Token tok) (hr : Grammar rest) :
    Grammar (tok ++ rest) := by
  obtain ⟨toks, h1, h2⟩ := hr
  refine ⟨tok :: toks, ?_, by simp [h2]⟩
  intro x hx
  rcases List.mem_cons.mp hx with h | h
  · rw [h]; exact ht
  · exact h1 x h

/-- Every layout of the grammar is accepted, whatever the run and the template the
parser starts from. -/
theorem scan_of_Grammar (cs : List Char) (h : Grammar cs) :
    ∀ (run : List Char) (t : LayoutTemplate), (scan (.text run) t cs).2 = none := by
  obtain ⟨toks, h1, h2⟩ := h
  subst h2
  induction toks with
  | nil => intro run t; simp [scan]
  | cons tok toks ih =>
    intro run t
    have ih1 := ih (fun x hx => h1 x (List.mem_cons_of_mem _ hx))
    have hc : ¬ ('c' = '%') ∧ ¬ ('p' = 'c') ∧ ¬ ('p' = 'd') ∧ ¬ ('m' = 'c') ∧ ¬ ('m' = 'd')
        ∧ ¬ ('m' = 'p') ∧ ¬ ('%' = 'c') ∧ ¬ ('%' = 'd') ∧ ¬ ('%' = 'p') ∧ ¬ ('%' = 'm')
        ∧ ¬ ('d' = 'c') := by decide
    rw [List.flatten_cons]
    cases h1 tok (List.mem_cons_self _ _) with
    | lit c hne =>
      rw [List.singleton_append, scan, if_neg hne]
      exact ih1 _ _
    | loggerName =>
      simp only [List.cons_append, List.nil_append]
      rw [scan, if_pos rfl, scan, if_pos rfl]
      exact ih1 _ _
    | level =>
      simp only [List.cons_append, List.nil_append]
      rw [scan, if_pos rfl, scan, if_neg hc.2.1, if_neg hc.2.2.1, if_pos rfl]
      exact ih1 _ _
    | message =>
      simp only [List.cons_append, List.nil_append]
      rw [scan, if_pos rfl, scan, if_neg hc.2.2.2.1, if_neg hc.2.2.2.2.1, if_neg hc.2.2.2.2.2.1,
        if_pos rfl]
      exact ih1 _ _
    | percent =>
      simp only [List.cons_append, List.nil_append]
      rw [scan, if_pos rfl, scan, if_neg hc.2.2.2.2.2.2.1, if_neg hc.2.2.2.2.2.2.2.1,
        if_neg hc.2.2.2.2.2.2.2.2.1, if_neg hc.2.2.2.2.2.2.2.2.2.1, if_pos rfl]
      exact ih1 _ _
    | date f hf =>
      simp only [List.cons_append, List.append_assoc, List.nil_append]
      rw [scan, if_pos rfl, scan, if_neg hc.2.2.2.2.2.2.2.2.2.2, if_pos rfl, scan,
        if_neg (not_not.mpr rfl), scan_date_run _ _ _ _ hf]
      exact ih1 _ _

/-- Whatever the parser accepts from a mode is what that mode demands. -/
theorem Demands_of_scan :
    ∀ (cs : List Char) (m : Mode) (t : LayoutTemplate),
      (scan m t cs).2 = none → Demands m cs := by
  intro cs
  induction cs with
  | nil =>
    intro m t h
    cases m with
    | text run => exact Grammar.nil
    | piece => simp [scan] at h
    | dateStart => simp [scan] at h
    | date run => simp [scan] at h
  | cons c cs ih =>
    intro m t
    cases m with
    | text run =>
      rw [scan]
      by_cases hc : c = '%'
      · rw [if_pos hc, hc]
        exact fun h => ih .piece _ h
      · rw [if_neg hc]
        exact fun h => Grammar.cons (Token.lit c hc) (ih (.text _) _ h)
    | piece =>
      rw [scan]
      by_cases h1 : c = 'c'
      · rw [if_pos h1, h1]
        exact fun h => Grammar.cons Token.loggerName (ih (.text _) _ h)
      rw [if_neg h1]
      by_cases h2 : c = 'd'
      · rw [if_pos h2, h2]
        exact fun h => ih .dateStart _ h
      rw [if_neg h2]
      by_cases h3 : c = 'p'
      · rw [if_pos h3, h3]
        exact fun h => Grammar.cons Token.level (ih (.text _) _ h)
      rw [if_neg h3]
      by_cases h4 : c = 'm'
      · rw [if_pos h4, h4]
        exact fun h => Grammar.cons Token.message (ih (.text _) _ h)
      rw [if_neg h4]
      by_cases h5 : c = '%'
      · rw [if_pos h5, h5]
        exact fun h => Grammar.cons Token.percent (ih (.text _) _ h)
      · rw [if_neg h5]
        intro h; simp at h
    | dateStart =>
      rw [scan]
      by_cases h1 : c = '{'
      · rw [if_neg (not_not.mpr h1), h1]
        intro h
        obtain ⟨f, rest, hcs, hf, hg⟩ := ih (.date []) _ h
        have := Grammar.cons (Token.date f hf) hg
        rw [hcs]
        simpa using this
      · rw [if_pos h1]
        intro h; simp at h
    | date run =>
      rw [scan]
      by_cases hc : c = '}'
      · rw [if_pos hc, hc]
        exact fun h => ⟨[], cs, rfl, by simp, ih (.text _) _ h⟩
      · rw [if_neg hc]
        intro h
        obtain ⟨f, rest, hcs, hf, hg⟩ := ih (.date _) _ h
        refine ⟨c :: f, rest, by simp [hcs], ?_, hg⟩
        intro hm
        rcases List.mem_cons.mp hm with h | h
        · exact hc h.symm
        · exact hf h

/-- The parser succeeds on exactly the layouts of the grammar. -/
theorem scan_ok_iff_Grammar (cs : List Char) :
    (scan (.text []) [] cs).2 = none ↔ Grammar cs :=
  ⟨fun h => Demands_of_scan cs (.text []) [] h, fun h => scan_of_Grammar cs h [] []⟩

/-! ## Templates grow at the end, rendering is a concatenation -/

theorem addPiece_append (str : String) (pieceType : Int) (t0 t : LayoutTemplate) :
    addPiece str pieceType (t0 ++ t) = t0 ++ addPiece str pieceType t := by
  unfold addPiece
  split_ifs
  · rfl
  · rw [List.append_assoc]

/-- The pieces the parser starts with stay in front, untouched, and have no influence
on the error. -/
theorem scan_keeps_front (t0 : LayoutTemplate) :
    ∀ (cs : List Char) (m : Mode) (t : LayoutTemplate),
      (scan m (t0 ++ t) cs).2 = (scan m t cs).2 ∧
      ((scan m t cs).2 = none → (scan m (t0 ++ t) cs).1 = t0 ++ (scan m t cs).1) := by
  intro cs
  induction cs with
  | nil =>
    intro m t
    cases m with
    | text run => simp [scan, addPiece_append]
    | piece => simp [scan]
    | dateStart => simp [scan]
    | date run => simp [scan]
  | cons c cs ih =>
    intro m t
    cases m with
    | text run =>
      rw [scan, scan]
      split_ifs
      · rw [addPiece_append]; exact ih _ _
      · exact ih _ _
    | piece =>
      rw [scan, scan]
      split_ifs
      · rw [addPiece_append]; exact ih _ _
      · exact ih _ _
      · rw [addPiece_append]; exact ih _ _
      · rw [addPiece_append]; exact ih _ _
      · exact ih _ _
      · simp
    | dateStart =>
      rw [scan, scan]
      split_ifs
      · simp
      · exact ih _ _
    | date run =>
      rw [scan, scan]
      split_ifs
      · rw [addPiece_append]; exact ih _ _
      · exact ih _ _

/-- In state `psText` the outcome (error or not) depends neither on the current run
nor on the pieces emitted so far. -/
theorem scan_text_ok_iff (cs run : List Char) (t : LayoutTemplate) :
    (scan (.text run) t cs).2 = none ↔ (scan (.text []) [] cs).2 = none :=
  ⟨fun h => scan_of_Grammar cs (Demands_of_scan cs (.text run) t h) [] [],
   fun h => scan_of_Grammar cs (Demands_of_scan cs (.text []) [] h) run t⟩

/-- Rendering two templates one after the other. -/
theorem renderLoop_append {τ π : Type} (rt : Runtime τ π) (logEvent : LogEvent τ π)
    (t2 : LayoutTemplate) :
    ∀ (t1 : LayoutTemplate) (buf : String),
      renderLoop rt logEvent (t1 ++ t2) buf
        = (renderLoop rt logEvent t1 buf).bind (renderLoop rt logEvent t2) := by
  intro t1
  induction t1 with
  | nil => intro buf; simp [renderLoop]
  | cons piece rest ih =>
    intro buf
    simp only [List.cons_append, renderLoop]
    split_ifs
    · exact ih _
    · exact ih _
    · exact ih _
    · cases levelName rt.logLevelNames logEvent.Level with
      | none => rfl
      | some name => exact ih _
    · exact ih _
    · exact ih _

/-- The renderer only ever appends to its buffer. -/
theorem renderLoop_buf {τ π : Type} (rt : Runtime τ π) (logEvent : LogEvent τ π) :
    ∀ (t : LayoutTemplate) (buf : String),
      renderLoop rt logEvent t buf
        = (renderLoop rt logEvent t "").map (fun out => buf ++ out) := by
  intro t
  induction t with
  | nil => intro buf; simp [renderLoop]
  | cons piece rest ih =>
    intro buf
    have key : ∀ x : String, renderLoop rt logEvent rest (buf ++ x)
        = (renderLoop rt logEvent rest ("" ++ x)).map (fun out => buf ++ out) := by
      intro x
      rw [ih (buf ++ x), ih ("" ++ x)]
      cases renderLoop rt logEvent rest "" with
      | none => rfl
      | some out => simp [String.append_assoc]
    simp only [renderLoop]
    split_ifs
    · exact key _
    · exact key _
    · exact key _
    · cases levelName rt.logLevelNames logEvent.Level with
      | none => rfl
      | some name => exact key _
    · exact key _
    · rw [ih buf]

/-- With the level inside the level-name table the renderer does not fault. -/
theorem renderLoop_total {τ π : Type} (rt : Runtime τ π) (logEvent : LogEvent τ π)
    (name : String) (hn : levelName rt.logLevelNames logEvent.Level = some name) :
    ∀ (t : LayoutTemplate) (buf : String), ∃ out, renderLoop rt logEvent t buf = some out := by
  intro t
  induction t with
  | nil => intro buf; exact ⟨buf, rfl⟩
  | cons piece rest ih =>
    intro buf
    simp only [renderLoop, hn]
    split_ifs <;> exact ih _

theorem levelName_of_valid (names : List String) (level : Int) (h0 : 0 ≤ level)
    (h1 : level < names.length) : ∃ name, levelName names level = some name := by
  have hlt : level.toNat < names.length := by omega
  exact ⟨names[level.toNat], by rw [levelName, if_pos h0, List.getElem?_eq_getElem hlt]⟩

/-- Every piece the parser emits has a non-empty value. -/
theorem scan_values_nonempty :
    ∀ (cs : List Char) (m : Mode) (t : LayoutTemplate),
      (∀ piece ∈ t, piece.value ≠ "") → ∀ piece ∈ (scan m t cs).1, piece.value ≠ "" := by
  have hadd : ∀ (str : String) (k : Int) (t : LayoutTemplate),
      (∀ piece ∈ t, piece.value ≠ "") → ∀ piece ∈ addPiece str k t, piece.value ≠ "" := by
    intro str k t ht piece hp
    by_cases hs : str = ""
    · rw [hs, addPiece_empty] at hp
      exact ht piece hp
    · rw [addPiece_nonempty _ _ _ hs] at hp
      rcases List.mem_append.mp hp with h | h
      · exact ht piece h
      · rw [List.mem_singleton.mp h]
        exact hs
  intro cs
  induction cs with
  | nil =>
    intro m t ht
    cases m with
    | text run => rw [scan]; exact hadd _ _ _ ht
    | piece => simp [scan]
    | dateStart => simp [scan]
    | date run => simp [scan]
  | cons c cs ih =>
    intro m t ht
    cases m with
    | text run =>
      rw [scan]
      split_ifs
      · exact ih _ _ (hadd _ _ _ ht)
      · exact ih _ _ ht
    | piece =>
      rw [scan]
      split_ifs
      · exact ih _ _ (hadd _ _ _ ht)
      · exact ih _ _ ht
      · exact ih _ _ (hadd _ _ _ ht)
      · exact ih _ _ (hadd _ _ _ ht)
      · exact ih _ _ ht
      · simp
    | dateStart =>
      rw [scan]
      split_ifs
      · simp
      · exact ih _ _ ht
    | date run =>
      rw [scan]
      split_ifs
      · exact ih _ _ (hadd _ _ _ ht)
      · exact ih _ _ ht

/-- A run of literal text up to the next `%`: the run is flushed there. -/
theorem scan_text_run_percent (t : LayoutTemplate) (rest : List Char) :
    ∀ (lit run : List Char), '%' ∉ lit →
      scan (.text run) t (lit ++ '%' :: rest)
        = scan .piece (addPiece ⟨run ++ lit⟩ lpText t) rest := by
  intro lit
  induction lit with
  | nil => intro run _; simp [scan]
  | cons c lit ih =>
    intro run h
    have hc : c ≠ '%' := fun hc => h (by simp [hc])
    have hl : '%' ∉ lit := fun hl => h (List.mem_cons_of_mem _ hl)
    rw [List.cons_append, scan, if_neg hc, ih _ hl]
    simp

/-- The layout `s%%t`, with no `%` in `s` and `t`: the text before `%%` is flushed at
the first `%`, the second `%` starts the run that `t` continues. -/
theorem ParseLayout_escaped_percent (s t : String) (hs : '%' ∉ s.data) (ht : '%' ∉ t.data) :
    ParseLayout (s ++ "%%" ++ t)
      = some (addPiece s lpText [] ++ [⟨"%" ++ t, lpText⟩], none) := by
  rw [ParseLayout_eq_scan]
  have hd : (s ++ "%%" ++ t).data = s.data ++ '%' :: ('%' :: t.data) := by
    simp only [String.data_append]
    simp
  have hp : ¬ ('%' = 'c') ∧ ¬ ('%' = 'd') ∧ ¬ ('%' = 'p') ∧ ¬ ('%' = 'm') := by decide
  have hne : ("%" ++ t : String) ≠ "" := by
    intro h
    have := congrArg String.data h
    simp at this
  rw [hd, scan_text_run_percent _ _ _ _ hs, scan, if_neg hp.1, if_neg hp.2.1, if_neg hp.2.2.1,
    if_neg hp.2.2.2, if_pos rfl, scan_text_run _ _ _ ht, List.nil_append]
  have he : (⟨['%'] ++ t.data⟩ : String) = "%" ++ t := rfl
  rw [he, addPiece_nonempty _ _ _ hne]

/-- Rendering what the parser yields from state `psText` with run `run` and pieces
`t`: the rendering of `t`, then the run, then what the rest of the layout renders to
on its own. -/
theorem renderLoop_scan_text {τ π : Type} (rt : Runtime τ π) (logEvent : LogEvent τ π) :
    ∀ (cs run : List Char) (t : LayoutTemplate), (scan (.text []) [] cs).2 = none →
      ∀ buf, renderLoop rt logEvent (scan (.text run) t cs).1 buf
        = (renderLoop rt logEvent t buf).bind
            (fun out => renderLoop rt logEvent (scan (.text []) [] cs).1 (out ++ ⟨run⟩)) := by
  intro cs
  induction cs with
  | nil =>
    intro run t _ buf
    have h0 : scan (.text []) [] [] = ([], none) := by
      rw [scan]
      exact congrArg (fun x => (x, none)) (addPiece_empty lpText [])
    rw [scan, h0, renderLoop_addPiece_text]
    cases renderLoop rt logEvent t buf <;> simp [renderLoop]
  | cons c cs ih =>
    intro run t h buf
    by_cases hc : c = '%'
    · have h0 : scan (.text []) [] (c :: cs) = scan .piece [] cs := by
        rw [scan, if_pos hc]
        exact congrArg (fun x => scan .piece x cs) (addPiece_empty lpText [])
      rw [h0] at h ⊢
      have hpre := (scan_keeps_front (addPiece ⟨run⟩ lpText t) cs .piece []).2 h
      rw [List.append_nil] at hpre
      rw [scan, if_pos hc, hpre, renderLoop_append, renderLoop_addPiece_text]
      cases renderLoop rt logEvent t buf <;> simp
    · have h0 : scan (.text []) [] (c :: cs) = scan (.text [c]) [] cs := by
        rw [scan, if_neg hc]; rfl
      rw [h0] at h ⊢
      have h1 : (scan (.text []) [] cs).2 = none := (scan_text_ok_iff cs [c] []).mp h
      rw [scan, if_neg hc, ih (run ++ [c]) t h1 buf]
      cases renderLoop rt logEvent t buf with
      | none => rfl
      | some out =>
        simp only [Option.some_bind]
        rw [ih [c] [] h1 (out ++ ⟨run⟩)]
        simp only [renderLoop, Option.some_bind]
        congr 1
        apply String.ext
        simp

/-- The layout `s%k rest` for a placeholder letter `k` of `c`, `p`, `m`: after the
placeholder the parser is in state `psText` with an empty run, having emitted the text
`s` (if any) and the piece of the placeholder. -/
theorem ParseLayout_placeholder (s rest : String) (k : Char) (piece : layoutPiece)
    (hs : '%' ∉ s.data)
    (hk : (k, piece) ∈ [('c', (⟨"c", lpLoggerName⟩ : layoutPiece)), ('p', ⟨"p", lpLogLevel⟩),
      ('m', ⟨"m", lpMessage⟩)]) :
    ParseLayout (s ++ "%" ++ String.singleton k ++ rest)
      = some (scan (.text []) (addPiece s lpText [] ++ [piece]) rest.data) := by
  rw [ParseLayout_eq_scan]
  have hd : (s ++ "%" ++ String.singleton k ++ rest).data
      = s.data ++ '%' :: (k :: rest.data) := by
    simp only [String.data_append]
    simp
  have hc : ¬ ('p' = 'c') ∧ ¬ ('p' = 'd') ∧ ¬ ('m' = 'c') ∧ ¬ ('m' = 'd') ∧ ¬ ('m' = 'p') := by
    decide
  have hc1 : ("c" : String) ≠ "" ∧ ("p" : String) ≠ "" ∧ ("m" : String) ≠ "" := by decide
  rw [hd, scan_text_run_percent _ _ _ _ hs, List.nil_append]
  simp only [List.mem_cons, Prod.mk.injEq, List.mem_singleton, List.not_mem_nil, or_false] at hk
  rcases hk with ⟨h1, h2⟩ | ⟨h1, h2⟩ | ⟨h1, h2⟩
  · rw [h1, h2, scan, if_pos rfl, addPiece_nonempty _ _ _ hc1.1]
  · rw [h1, h2, scan, if_neg hc.1, if_neg hc.2.1, if_pos rfl, addPiece_nonempty _ _ _ hc1.2.1]
  · rw [h1, h2, scan, if_neg hc.2.2.1, if_neg hc.2.2.2.1, if_neg hc.2.2.2.2, if_pos rfl,
      addPiece_nonempty _ _ _ hc1.2.2]

/-- After an accepted layout `a` the parser is in state `psText` with a run and pieces
that make up the template of `a`, and goes on from there. -/
theorem ParseLayout_append (a : String) (ta : LayoutTemplate)
    (ha : ParseLayout a = some (ta, none)) :
    ∃ run1 t1, ta = addPiece ⟨run1⟩ lpText t1 ∧
      ∀ b : String, ParseLayout (a ++ b) = some (scan (.text run1) t1 b.data) := by
  rw [ParseLayout_eq_scan] at ha
  have ha1 := Option.some.inj ha
  have h2 : (scan (.text []) [] a.data).2 = none := by rw [ha1]
  obtain ⟨run1, t1, hk⟩ := scan_prefix a.data _ _ h2
  refine ⟨run1, t1, ?_, fun b => by rw [ParseLayout_eq_scan, String.data_append, hk]⟩
  have h3 := hk []
  rw [List.append_nil, ha1, scan] at h3
  exact congrArg Prod.fst h3

/-! ## The claims -/

/-- C1: a layout without `%` compiles, and the compiled template renders to the layout
itself for every event. -/
theorem C1_literal_layout_renders_verbatim {τ π : Type} (rt : Runtime τ π)
    (logEvent : LogEvent τ π) (layout : String) (h : '%' ∉ layout.data) :
    ∃ template, ParseLayout layout = some (template, none) ∧
      ToLogMessage rt logEvent template = some layout := by
  refine ⟨addPiece layout lpText [], ?_, ?_⟩
  · rw [ParseLayout_eq_scan, scan_text_run _ _ _ h]
    simp
  · unfold ToLogMessage
    rw [renderLoop_addPiece_text]
    simp [renderLoop]

theorem C1_literal_layout_renders_verbatim_witness :
    '%' ∉ "plain text, no placeholder".data ∧
    ∃ template, ParseLayout "plain text, no placeholder" = some (template, none) ∧
      ToLogMessage sampleRuntime sampleEvent template = some "plain text, no placeholder" :=
  ⟨by decide,
   C1_literal_layout_renders_verbatim sampleRuntime sampleEvent "plain text, no placeholder"
     (by decide)⟩

/-- C2: the layout `%c: %p - %m` compiles, and for an event whose level is a valid
index of the level-name table the rendering is the logger name, `": "`, the level name
at that index, `" - "` and the printed payload. -/
theorem C2_name_level_message_layout {τ π : Type} (rt : Runtime τ π) (logEvent : LogEvent τ π)
    (h0 : 0 ≤ logEvent.Level) (h1 : logEvent.Level < rt.logLevelNames.length) :
    ∃ template name, ParseLayout "%c: %p - %m" = some (template, none) ∧
      rt.logLevelNames[logEvent.Level.toNat]? = some name ∧
      ToLogMessage rt logEvent template
        = some (logEvent.LoggerName ++ ": " ++ name ++ " - " ++ rt.Sprint logEvent.Payload) := by
  have hlt : logEvent.Level.toNat < rt.logLevelNames.length := by omega
  refine ⟨[⟨"c", lpLoggerName⟩, ⟨": ", lpText⟩, ⟨"p", lpLogLevel⟩, ⟨" - ", lpText⟩,
    ⟨"m", lpMessage⟩], rt.logLevelNames[logEvent.Level.toNat], by decide,
    List.getElem?_eq_getElem hlt, ?_⟩
  have hn : levelName rt.logLevelNames logEvent.Level
      = some rt.logLevelNames[logEvent.Level.toNat] := by
    rw [levelName, if_pos h0, List.getElem?_eq_getElem hlt]
  simp [ToLogMessage, renderLoop, hn, lpText, lpLoggerName, lpLogLevel, lpMessage, lpDate]

theorem C2_name_level_message_layout_witness :
    (0 ≤ sampleEvent.Level ∧ sampleEvent.Level < sampleRuntime.logLevelNames.length) ∧
    ∃ template name, ParseLayout "%c: %p - %m" = some (template, none) ∧
      sampleRuntime.logLevelNames[sampleEvent.Level.toNat]? = some name ∧
      ToLogMessage sampleRuntime sampleEvent template
        = some ("root" ++ ": " ++ name ++ " - " ++ "boot complete") :=
  ⟨by decide, C2_name_level_message_layout sampleRuntime sampleEvent (by decide) (by decide)⟩

/-- C3: for a non-empty format `f` without `}`, the layout `%d{f} %m` compiles and
renders to the timestamp formatted with `f`, a space, and the printed payload. -/
theorem C3_date_then_message_layout {τ π : Type} (rt : Runtime τ π) (logEvent : LogEvent τ π)
    (f : String) (hne : f ≠ "") (hbr : '}' ∉ f.data) :
    ∃ template, ParseLayout ("%d\x7b" ++ f ++ "\x7d %m") = some (template, none) ∧
      ToLogMessage rt logEvent template
        = some (rt.Format logEvent.Timestamp f ++ " " ++ rt.Sprint logEvent.Payload) := by
  refine ⟨[⟨f, lpDate⟩, ⟨" ", lpText⟩, ⟨"m", lpMessage⟩], ?_, ?_⟩
  · rw [ParseLayout_eq_scan]
    have hd : ("%d\x7b" ++ f ++ "\x7d %m").data
        = '%' :: 'd' :: '{' :: (f.data ++ '}' :: [' ', '%', 'm']) := by
      simp only [String.data_append]
      rfl
    have h1 : ¬ ('d' = 'c') := by decide
    rw [hd, scan, if_pos rfl, scan, if_neg h1, if_pos rfl, scan, if_neg (not_not.mpr rfl),
      scan_date_run _ _ _ _ hbr, addPiece_empty, List.nil_append, addPiece_nonempty _ _ _ hne]
    rfl
  · simp [ToLogMessage, renderLoop, lpText, lpLoggerName, lpLogLevel, lpMessage, lpDate]

theorem C3_date_then_message_layout_witness :
    ("2006-01-02" ≠ "" ∧ '}' ∉ "2006-01-02".data) ∧
    ∃ template, ParseLayout ("%d\x7b" ++ "2006-01-02" ++ "\x7d %m") = some (template, none) ∧
      ToLogMessage sampleRuntime sampleEvent template
        = some (sampleRuntime.Format sampleEvent.Timestamp "2006-01-02" ++ " "
            ++ sampleRuntime.Sprint sampleEvent.Payload) :=
  ⟨by decide,
   C3_date_then_message_layout sampleRuntime sampleEvent "2006-01-02" (by decide) (by decide)⟩

/-- C4: for every string `s`, the layout obtained by doubling each `%` compiles, and the
compiled template renders to exactly `s` for every event. -/
theorem C4_escaped_layout_round_trip {τ π : Type} (rt : Runtime τ π) (logEvent : LogEvent τ π)
    (s : String) :
    ∃ template, ParseLayout (escapePercent s) = some (template, none) ∧
      ToLogMessage rt logEvent template = some s := by
  obtain ⟨t1, h1, h2⟩ := scan_escapeChars rt logEvent s.data [] []
  refine ⟨t1, ?_, ?_⟩
  · rw [ParseLayout_eq_scan]
    exact congrArg some h1
  · rw [ToLogMessage, h2 ""]
    simp [renderLoop]

/-- C5: `ParseLayout` returns without error exactly on the layouts that are a
concatenation of tokens of the grammar, and returns an error (with a nil template)
exactly on the others. -/
theorem C5_error_iff_grammar_violation (layout : String) :
    ((∃ template, ParseLayout layout = some (template, none)) ↔ Grammar layout.data) ∧
    ((∃ msg, ParseLayout layout = some ([], some msg)) ↔ ¬ Grammar layout.data) := by
  rw [ParseLayout_eq_scan, ← scan_ok_iff_Grammar]
  constructor
  · constructor
    · rintro ⟨template, h⟩
      rw [Option.some.inj h]
    · intro h
      exact ⟨(scan (.text []) [] layout.data).1, congrArg some (Prod.ext rfl h)⟩
  · constructor
    · rintro ⟨msg, h⟩
      rw [Option.some.inj h]
      simp
    · intro h
      have h1 := scan_error_template layout.data (.text []) [] h
      obtain ⟨msg, hm⟩ := Option.ne_none_iff_exists'.mp h
      exact ⟨msg, congrArg some (Prod.ext h1 hm)⟩

/-- C6: after an accepted prefix, `%` followed by a character `x` other than `c`, `d`,
`p`, `m` and `%` makes `ParseLayout` return the error `Unknown layout identifier x`,
whatever follows. -/
theorem C6_unknown_identifier_error (pre rest : String) (x : Char)
    (hpre : ∃ template, ParseLayout pre = some (template, none))
    (hx : x ∉ ['c', 'd', 'p', 'm', '%']) :
    ParseLayout (pre ++ "%" ++ String.singleton x ++ rest)
      = some ([], some ("Unknown layout identifier " ++ String.singleton x)) := by
  obtain ⟨run1, t1, hk⟩ := ParseLayout_prefix pre hpre
  simp only [List.mem_cons, List.mem_singleton, List.not_mem_nil, or_false, not_or] at hx
  rw [String.append_assoc, String.append_assoc, hk]
  have hd : ("%" ++ (String.singleton x ++ rest)).data = '%' :: x :: rest.data := rfl
  rw [hd, scan, if_pos rfl, scan, if_neg hx.1, if_neg hx.2.1, if_neg hx.2.2.1,
    if_neg hx.2.2.2.1, if_neg hx.2.2.2.2]

theorem C6_unknown_identifier_error_witness :
    ((∃ template, ParseLayout "" = some (template, none)) ∧
      'x' ∉ ['c', 'd', 'p', 'm', '%']) ∧
    ParseLayout ("" ++ "%" ++ String.singleton 'x' ++ "")
      = some ([], some ("Unknown layout identifier " ++ String.singleton 'x')) :=
  ⟨⟨⟨[], by decide⟩, by decide⟩,
   C6_unknown_identifier_error "" "" 'x' ⟨[], by decide⟩ (by decide)⟩

/-- C7: after an accepted prefix, `%d` followed by a character `x` other than `{` makes
`ParseLayout` return the error saying that `%d` must be followed by a date format in
braces and naming `x`, whatever follows. -/
theorem C7_date_without_brace_error (pre rest : String) (x : Char)
    (hpre : ∃ template, ParseLayout pre = some (template, none)) (hx : x ≠ '{') :
    ParseLayout (pre ++ "%d" ++ String.singleton x ++ rest)
      = some ([], some
          ("%d should follow by date format in braces like this: %d\x7b...\x7d, but found "
            ++ String.singleton x)) := by
  obtain ⟨run1, t1, hk⟩ := ParseLayout_prefix pre hpre
  rw [String.append_assoc, String.append_assoc, hk]
  have hd : ("%d" ++ (String.singleton x ++ rest)).data = '%' :: 'd' :: x :: rest.data := rfl
  have h1 : ¬ ('d' = 'c') := by decide
  rw [hd, scan, if_pos rfl, scan, if_neg h1, if_pos rfl, scan, if_pos hx]

theorem C7_date_without_brace_error_witness :
    ((∃ template, ParseLayout "at " = some (template, none)) ∧ ' ' ≠ '{') ∧
    ParseLayout ("at " ++ "%d" ++ String.singleton ' ' ++ "%m")
      = some ([], some
          ("%d should follow by date format in braces like this: %d\x7b...\x7d, but found "
            ++ String.singleton ' ')) :=
  ⟨⟨⟨[⟨"at ", lpText⟩], by decide⟩, by decide⟩,
   C7_date_without_brace_error "at " "%m" ' ' ⟨[⟨"at ", lpText⟩], by decide⟩ (by decide)⟩

/-- C8: after an accepted prefix, a layout that ends right after `%`, right after `%d`,
or inside `%d{` before any `}` makes `ParseLayout` return the error
`Unexpected end of layout, cannot parse it properly`. -/
theorem C8_unterminated_placeholder_error (pre f : String)
    (hpre : ∃ template, ParseLayout pre = some (template, none)) (hf : '}' ∉ f.data) :
    ParseLayout (pre ++ "%")
      = some ([], some "Unexpected end of layout, cannot parse it properly") ∧
    ParseLayout (pre ++ "%d")
      = some ([], some "Unexpected end of layout, cannot parse it properly") ∧
    ParseLayout (pre ++ "%d\x7b" ++ f)
      = some ([], some "Unexpected end of layout, cannot parse it properly") := by
  obtain ⟨run1, t1, hk⟩ := ParseLayout_prefix pre hpre
  have h1 : ¬ ('d' = 'c') := by decide
  refine ⟨?_, ?_, ?_⟩
  · rw [hk]
    have hd : ("%" : String).data = ['%'] := rfl
    rw [hd, scan, if_pos rfl, scan]
  · rw [hk]
    have hd : ("%d" : String).data = ['%', 'd'] := rfl
    rw [hd, scan, if_pos rfl, scan, if_neg h1, if_pos rfl, scan]
  · rw [String.append_assoc, hk]
    have hd : ("%d\x7b" ++ f).data = '%' :: 'd' :: '{' :: f.data := rfl
    rw [hd, scan, if_pos rfl, scan, if_neg h1, if_pos rfl, scan, if_neg (not_not.mpr rfl),
      scan_date_unterminated _ _ _ hf]

theorem C8_unterminated_placeholder_error_witness :
    ((∃ template, ParseLayout "" = some (template, none)) ∧ '}' ∉ "2006".data) ∧
    ParseLayout ("" ++ "%")
      = some ([], some "Unexpected end of layout, cannot parse it properly") ∧
    ParseLayout ("" ++ "%d")
      = some ([], some "Unexpected end of layout, cannot parse it properly") ∧
    ParseLayout ("" ++ "%d\x7b" ++ "2006")
      = some ([], some "Unexpected end of layout, cannot parse it properly") :=
  ⟨⟨⟨[], by decide⟩, by decide⟩,
   C8_unterminated_placeholder_error "" "2006" ⟨[], by decide⟩ (by decide)⟩

/-- C9: for a non-empty format `f` without `}`, the layout `%d{f}` compiles to the
template whose only piece is the date piece with value `f`, unmodified. -/
theorem C9_date_format_verbatim (f : String) (hne : f ≠ "") (hbr : '}' ∉ f.data) :
    ParseLayout ("%d\x7b" ++ f ++ "\x7d") = some ([⟨f, lpDate⟩], none) := by
  rw [ParseLayout_eq_scan]
  have hd : ("%d\x7b" ++ f ++ "\x7d").data = '%' :: 'd' :: '{' :: (f.data ++ '}' :: []) := by
    simp only [String.data_append]
    rfl
  have h1 : ¬ ('d' = 'c') := by decide
  rw [hd, scan, if_pos rfl, scan, if_neg h1, if_pos rfl, scan, if_neg (not_not.mpr rfl),
    scan_date_run _ _ _ _ hbr, addPiece_empty, List.nil_append, addPiece_nonempty _ _ _ hne,
    scan, addPiece_empty]
  rfl

theorem C9_date_format_verbatim_witness :
    ("%c 100% \x7bx" ≠ "" ∧ '}' ∉ "%c 100% \x7bx".data) ∧
    ParseLayout ("%d\x7b" ++ "%c 100% \x7bx" ++ "\x7d")
      = some ([⟨"%c 100% \x7bx", lpDate⟩], none) :=
  ⟨by decide, C9_date_format_verbatim "%c 100% \x7bx" (by decide) (by decide)⟩

/-- C10, as stated, fails: `addPiece` with an empty payload leaves the template
unchanged for a date piece too, and `%d{}` compiles to the empty template, not to a
template holding a date piece with empty value. -/
theorem C10_empty_date_piece_dropped :
    addPiece "" lpDate [] = [] ∧
    addPiece "" lpDate [] ≠ [⟨"", lpDate⟩] ∧
    ParseLayout "%d\x7b\x7d" = some ([], none) ∧
    ParseLayout "%d\x7b\x7d" ≠ some ([⟨"", lpDate⟩], none) := by
  decide

/-- C10, amended: `addPiece` leaves the template unchanged exactly when the payload is
empty, whatever the piece type, and appends the piece otherwise; `%d{}` compiles
without error to the empty template. -/
theorem C10_addPiece_drops_empty_payload (str : String) (pieceType : Int)
    (template : LayoutTemplate) :
    addPiece str pieceType template
        = (if str = "" then template else template ++ [⟨str, pieceType⟩]) ∧
    (addPiece str pieceType template = template ↔ str = "") ∧
    ParseLayout "%d\x7b\x7d" = some ([], none) := by
  refine ⟨?_, ?_, by decide⟩
  · by_cases h : str = ""
    · rw [if_pos h, h, addPiece_empty]
    · rw [if_neg h, addPiece_nonempty _ _ _ h]
  · constructor
    · intro h
      by_contra hne
      rw [addPiece_nonempty _ _ _ hne] at h
      simp at h
    · intro h
      rw [h, addPiece_empty]

/-- C11, as stated, fails: in `ab%%cd` the text before `%%` is not merged with the
text after it; the template has two literal-text pieces, `ab` and `%cd`. -/
theorem C11_text_before_escape_is_flushed :
    ParseLayout ("ab" ++ "%%" ++ "cd") = some ([⟨"ab", lpText⟩, ⟨"%cd", lpText⟩], none) ∧
    ParseLayout ("ab" ++ "%%" ++ "cd") ≠ some ([⟨"ab" ++ "%" ++ "cd", lpText⟩], none) := by
  decide

/-- C11, amended: for `s` and `t` without `%`, the layout `s%%t` compiles to the
literal-text piece `s` (only when `s` is not empty) followed by one literal-text piece
with value `%t`: the `%` is folded into the run after it. -/
theorem C11_escape_folds_into_following_run (s t : String) (hs : '%' ∉ s.data)
    (ht : '%' ∉ t.data) :
    ParseLayout (s ++ "%%" ++ t)
      = some ((if s = "" then [] else [⟨s, lpText⟩]) ++ [⟨"%" ++ t, lpText⟩], none) := by
  rw [ParseLayout_escaped_percent s t hs ht]
  by_cases h : s = ""
  · rw [if_pos h, h, addPiece_empty]
  · rw [if_neg h, addPiece_nonempty _ _ _ h, List.nil_append]

theorem C11_escape_folds_into_following_run_witness :
    ('%' ∉ "50".data ∧ '%' ∉ " done".data) ∧
    ParseLayout ("50" ++ "%%" ++ " done")
      = some ((if "50" = "" then [] else [⟨"50", lpText⟩]) ++ [⟨"%" ++ " done", lpText⟩], none) :=
  ⟨by decide, C11_escape_folds_into_following_run "50" " done" (by decide) (by decide)⟩

/-- C12: for `t` without `%`, the layout `%%t` compiles to a single literal-text piece
with value `%t`; no date piece comes out of `%%d`. -/
theorem C12_leading_escape_single_piece (t : String) (ht : '%' ∉ t.data) :
    ParseLayout ("%%" ++ t) = some ([⟨"%" ++ t, lpText⟩], none) := by
  have h := ParseLayout_escaped_percent "" t (by decide) ht
  rw [addPiece_empty, List.nil_append] at h
  exact h

theorem C12_leading_escape_single_piece_witness :
    '%' ∉ "d is not a date".data ∧
    ParseLayout ("%%" ++ "d is not a date") = some ([⟨"%" ++ "d is not a date", lpText⟩], none) :=
  ⟨by decide, C12_leading_escape_single_piece "d is not a date" (by decide)⟩

/-- C13: a template returned by `ParseLayout` without error holds no literal-text piece
with empty value. -/
theorem C13_no_empty_text_piece (layout : String) (template : LayoutTemplate)
    (h : ParseLayout layout = some (template, none)) :
    ∀ piece ∈ template, piece.pieceType = lpText → piece.value ≠ "" := by
  rw [ParseLayout_eq_scan] at h
  have h1 : template = (scan (.text []) [] layout.data).1 := by rw [Option.some.inj h]
  intro piece hp _
  rw [h1] at hp
  exact scan_values_nonempty layout.data (.text []) [] (by simp) piece hp

theorem C13_no_empty_text_piece_witness :
    ParseLayout "%c%p x%m" = some ([⟨"c", lpLoggerName⟩, ⟨"p", lpLogLevel⟩, ⟨" x", lpText⟩,
      ⟨"m", lpMessage⟩], none) ∧
    ∀ piece ∈ [(⟨"c", lpLoggerName⟩ : layoutPiece), ⟨"p", lpLogLevel⟩, ⟨" x", lpText⟩,
      ⟨"m", lpMessage⟩], piece.pieceType = lpText → piece.value ≠ "" :=
  ⟨by decide, C13_no_empty_text_piece "%c%p x%m" _ (by decide)⟩

/-- C14: the empty template renders to the empty string; when `t1` and `t2` render
without fault, `t1 ++ t2` renders to the rendering of `t1` followed by that of `t2`; and
a single piece of each of the five kinds renders to its own text and nothing else. -/
theorem C14_render_is_concatenation {τ π : Type} (rt : Runtime τ π) (logEvent : LogEvent τ π)
    (t1 t2 : LayoutTemplate) (o1 o2 : String)
    (h1 : ToLogMessage rt logEvent t1 = some o1) (h2 : ToLogMessage rt logEvent t2 = some o2) :
    ToLogMessage rt logEvent [] = some "" ∧
    ToLogMessage rt logEvent (t1 ++ t2) = some (o1 ++ o2) ∧
    (∀ v, ToLogMessage rt logEvent [⟨v, lpText⟩] = some v) ∧
    (∀ v, ToLogMessage rt logEvent [⟨v, lpLoggerName⟩] = some logEvent.LoggerName) ∧
    (∀ v, ToLogMessage rt logEvent [⟨v, lpDate⟩] = some (rt.Format logEvent.Timestamp v)) ∧
    (∀ v, ToLogMessage rt logEvent [⟨v, lpLogLevel⟩]
      = levelName rt.logLevelNames logEvent.Level) ∧
    (∀ v, ToLogMessage rt logEvent [⟨v, lpMessage⟩] = some (rt.Sprint logEvent.Payload)) := by
  unfold ToLogMessage at *
  refine ⟨rfl, ?_, ?_, ?_, ?_, ?_, ?_⟩
  · rw [renderLoop_append, h1, Option.some_bind, renderLoop_buf, h2]
    rfl
  · intro v; simp [renderLoop]
  · intro v; simp [renderLoop, lpText, lpLoggerName]
  · intro v; simp [renderLoop, lpText, lpLoggerName, lpDate]
  · intro v
    cases h : levelName rt.logLevelNames logEvent.Level <;>
      simp [renderLoop, lpText, lpLoggerName, lpDate, lpLogLevel, h]
  · intro v; simp [renderLoop, lpText, lpLoggerName, lpDate, lpLogLevel, lpMessage]

theorem C14_render_is_concatenation_witness :
    (ToLogMessage sampleRuntime sampleEvent [⟨"c", lpLoggerName⟩, ⟨": ", lpText⟩]
        = some "root: " ∧
      ToLogMessage sampleRuntime sampleEvent [⟨"p", lpLogLevel⟩, ⟨"m", lpMessage⟩]
        = some "INFOboot complete") ∧
    ToLogMessage sampleRuntime sampleEvent
        ([⟨"c", lpLoggerName⟩, ⟨": ", lpText⟩] ++ [⟨"p", lpLogLevel⟩, ⟨"m", lpMessage⟩])
      = some ("root: " ++ "INFOboot complete") :=
  ⟨⟨by decide, by decide⟩,
   (C14_render_is_concatenation sampleRuntime sampleEvent
      [⟨"c", lpLoggerName⟩, ⟨": ", lpText⟩] [⟨"p", lpLogLevel⟩, ⟨"m", lpMessage⟩]
      "root: " "INFOboot complete" (by decide) (by decide)).2.1⟩

/-- C15: for a template returned by `ParseLayout` without error and an event whose
level is a valid index of the level-name table, the level-name lookup is in bounds and
`ToLogMessage` returns a string. -/
theorem C15_render_total_under_valid_level {τ π : Type} (rt : Runtime τ π)
    (logEvent : LogEvent τ π) (layout : String) (template : LayoutTemplate)
    (_h : ParseLayout layout = some (template, none))
    (h0 : 0 ≤ logEvent.Level) (h1 : logEvent.Level < rt.logLevelNames.length) :
    (∃ name, levelName rt.logLevelNames logEvent.Level = some name) ∧
    ∃ out, ToLogMessage rt logEvent template = some out := by
  obtain ⟨name, hn⟩ := levelName_of_valid rt.logLevelNames logEvent.Level h0 h1
  exact ⟨⟨name, hn⟩, renderLoop_total rt logEvent name hn template ""⟩

theorem C15_render_total_under_valid_level_witness :
    (ParseLayout "[%p] %m" = some ([⟨"[", lpText⟩, ⟨"p", lpLogLevel⟩, ⟨"] ", lpText⟩,
        ⟨"m", lpMessage⟩], none) ∧
      0 ≤ sampleEvent.Level ∧ sampleEvent.Level < sampleRuntime.logLevelNames.length) ∧
    (∃ name, levelName sampleRuntime.logLevelNames sampleEvent.Level = some name) ∧
    ∃ out, ToLogMessage sampleRuntime sampleEvent [⟨"[", lpText⟩, ⟨"p", lpLogLevel⟩,
      ⟨"] ", lpText⟩, ⟨"m", lpMessage⟩] = some out :=
  ⟨by decide,
   C15_render_total_under_valid_level sampleRuntime sampleEvent "[%p] %m" _ (by decide)
     (by decide) (by decide)⟩

/-- C16: when `ParseLayout` returns an error, the template returned with it is nil. -/
theorem C16_error_returns_nil_template (layout : String) (template : LayoutTemplate)
    (msg : String) (h : ParseLayout layout = some (template, some msg)) :
    template = [] := by
  rw [ParseLayout_eq_scan] at h
  have h1 := Option.some.inj h
  have h2 := scan_error_template layout.data (.text []) [] (by rw [h1]; simp)
  rw [h1] at h2
  exact h2

theorem C16_error_returns_nil_template_witness :
    ParseLayout "%c: %x" = some ([], some "Unknown layout identifier x") ∧
    ([] : LayoutTemplate) = [] :=
  ⟨by decide, C16_error_returns_nil_template "%c: %x" [] "Unknown layout identifier x"
    (by decide)⟩

/-- C17: the empty layout compiles to the template without pieces, which renders to
the empty string for every event. -/
theorem C17_empty_layout {τ π : Type} (rt : Runtime τ π) (logEvent : LogEvent τ π) :
    ParseLayout "" = some ([], none) ∧ ToLogMessage rt logEvent [] = some "" :=
  ⟨by decide, rfl⟩

/-- C18: for `s` without `%` and a placeholder `%c`, `%p` or `%m`, the layout
`s ++ placeholder ++ rest` compiles exactly when `rest` does, and then to the
literal-text piece `s` (only when `s` is not empty), the piece of the placeholder, and
the template of `rest`. -/
theorem C18_placeholder_decomposition (s rest : String) (k : Char) (piece : layoutPiece)
    (hs : '%' ∉ s.data)
    (hk : (k, piece) ∈ [('c', (⟨"c", lpLoggerName⟩ : layoutPiece)), ('p', ⟨"p", lpLogLevel⟩),
      ('m', ⟨"m", lpMessage⟩)]) :
    ((∃ template, ParseLayout (s ++ "%" ++ String.singleton k ++ rest) = some (template, none))
      ↔ ∃ tr, ParseLayout rest = some (tr, none)) ∧
    ∀ tr, ParseLayout rest = some (tr, none) →
      ParseLayout (s ++ "%" ++ String.singleton k ++ rest)
        = some ((if s = "" then [] else [⟨s, lpText⟩]) ++ piece :: tr, none) := by
  have hp := ParseLayout_placeholder s rest k piece hs hk
  have hpre := scan_keeps_front (addPiece s lpText [] ++ [piece]) rest.data (.text []) []
  rw [List.append_nil] at hpre
  have hadd : addPiece s lpText [] = (if s = "" then [] else [⟨s, lpText⟩]) := by
    by_cases h : s = ""
    · rw [if_pos h, h, addPiece_empty]
    · rw [if_neg h, addPiece_nonempty _ _ _ h, List.nil_append]
  have key : ∀ tr, ParseLayout rest = some (tr, none) →
      ParseLayout (s ++ "%" ++ String.singleton k ++ rest)
        = some ((if s = "" then [] else [⟨s, lpText⟩]) ++ piece :: tr, none) := by
    intro tr htr
    rw [ParseLayout_eq_scan] at htr
    have h1 := Option.some.inj htr
    have h2 : (scan (.text []) [] rest.data).2 = none := by rw [h1]
    rw [hp, ← hadd]
    refine congrArg some (Prod.ext ?_ ?_)
    · rw [hpre.2 h2, h1]
      simp
    · rw [hpre.1, h2]
  refine ⟨⟨?_, ?_⟩, key⟩
  · rintro ⟨template, ht⟩
    rw [hp] at ht
    have h1 : (scan (.text []) (addPiece s lpText [] ++ [piece]) rest.data).2 = none := by
      rw [Option.some.inj ht]
    rw [hpre.1] at h1
    exact ⟨(scan (.text []) [] rest.data).1, by
      rw [ParseLayout_eq_scan]; exact congrArg some (Prod.ext rfl h1)⟩
  · rintro ⟨tr, htr⟩
    exact ⟨_, key tr htr⟩

theorem C18_placeholder_decomposition_witness :
    ('%' ∉ "level ".data ∧
      ('p', (⟨"p", lpLogLevel⟩ : layoutPiece)) ∈ [('c', (⟨"c", lpLoggerName⟩ : layoutPiece)),
        ('p', ⟨"p", lpLogLevel⟩), ('m', ⟨"m", lpMessage⟩)]) ∧
    ((∃ template, ParseLayout ("level " ++ "%" ++ String.singleton 'p' ++ ": %m")
        = some (template, none))
      ↔ ∃ tr, ParseLayout ": %m" = some (tr, none)) ∧
    ∀ tr, ParseLayout ": %m" = some (tr, none) →
      ParseLayout ("level " ++ "%" ++ String.singleton 'p' ++ ": %m")
        = some ((if "level " = "" then [] else [⟨"level ", lpText⟩])
            ++ (⟨"p", lpLogLevel⟩ : layoutPiece) :: tr, none) :=
  ⟨by decide, C18_placeholder_decomposition "level " ": %m" 'p' ⟨"p", lpLogLevel⟩ (by decide)
    (by decide)⟩

/-- C19: after a layout `a` that compiles, `a ++ b` compiles exactly when `b` does, and
then, for an event whose level is a valid index of the level-name table, the template
of `a ++ b` renders to the rendering of the template of `a` followed by the rendering
of the template of `b`. -/
theorem C19_layouts_compose {τ π : Type} (rt : Runtime τ π) (logEvent : LogEvent τ π)
    (a b : String) (ha : ∃ ta, ParseLayout a = some (ta, none))
    (h0 : 0 ≤ logEvent.Level) (h1 : logEvent.Level < rt.logLevelNames.length) :
    ((∃ tab, ParseLayout (a ++ b) = some (tab, none))
      ↔ ∃ tb, ParseLayout b = some (tb, none)) ∧
    ∀ ta tb tab, ParseLayout a = some (ta, none) → ParseLayout b = some (tb, none) →
      ParseLayout (a ++ b) = some (tab, none) →
      ∃ oa ob, ToLogMessage rt logEvent ta = some oa ∧ ToLogMessage rt logEvent tb = some ob ∧
        ToLogMessage rt logEvent tab = some (oa ++ ob) := by
  obtain ⟨name, hn⟩ := levelName_of_valid rt.logLevelNames logEvent.Level h0 h1
  constructor
  · obtain ⟨ta, hta⟩ := ha
    obtain ⟨run1, t1, -, hk⟩ := ParseLayout_append a ta hta
    rw [hk b, ParseLayout_eq_scan]
    constructor
    · rintro ⟨tab, h⟩
      have h2 : (scan (.text run1) t1 b.data).2 = none := by rw [Option.some.inj h]
      exact ⟨_, congrArg some (Prod.ext rfl ((scan_text_ok_iff _ _ _).mp h2))⟩
    · rintro ⟨tb, h⟩
      have h2 : (scan (.text []) [] b.data).2 = none := by rw [Option.some.inj h]
      exact ⟨_, congrArg some (Prod.ext rfl ((scan_text_ok_iff _ run1 t1).mpr h2))⟩
  · intro ta tb tab hta htb htab
    obtain ⟨run1, t1, hta1, hk⟩ := ParseLayout_append a ta hta
    rw [hk b] at htab
    rw [ParseLayout_eq_scan] at htb
    have hb := Option.some.inj htb
    have hb2 : (scan (.text []) [] b.data).2 = none := by rw [hb]
    have hb1 : (scan (.text []) [] b.data).1 = tb := by rw [hb]
    have hab1 : (scan (.text run1) t1 b.data).1 = tab := by rw [Option.some.inj htab]
    obtain ⟨o1, ho1⟩ := renderLoop_total rt logEvent name hn t1 ""
    obtain ⟨ob, hob⟩ := renderLoop_total rt logEvent name hn tb ""
    have hj := renderLoop_scan_text rt logEvent b.data run1 t1 hb2 ""
    rw [hab1, hb1, ho1, Option.some_bind, renderLoop_buf rt logEvent tb (o1 ++ ⟨run1⟩),
      hob] at hj
    rw [Option.map_some'] at hj
    refine ⟨o1 ++ String.mk run1, ob, ?_, hob, hj⟩
    rw [ToLogMessage, hta1, renderLoop_addPiece_text, ho1]
    rfl

theorem C19_layouts_compose_witness :
    ((∃ ta, ParseLayout "%c says" = some (ta, none)) ∧
      0 ≤ sampleEvent.Level ∧ sampleEvent.Level < sampleRuntime.logLevelNames.length) ∧
    ((∃ tab, ParseLayout ("%c says" ++ ": %m") = some (tab, none))
      ↔ ∃ tb, ParseLayout ": %m" = some (tb, none)) ∧
    ∀ ta tb tab, ParseLayout "%c says" = some (ta, none) →
      ParseLayout ": %m" = some (tb, none) →
      ParseLayout ("%c says" ++ ": %m") = some (tab, none) →
      ∃ oa ob, ToLogMessage sampleRuntime sampleEvent ta = some oa ∧
        ToLogMessage sampleRuntime sampleEvent tb = some ob ∧
        ToLogMessage sampleRuntime sampleEvent tab = some (oa ++ ob) :=
  ⟨⟨⟨[⟨"c", lpLoggerName⟩, ⟨" says", lpText⟩], by decide⟩, by decide, by decide⟩,
   C19_layouts_compose sampleRuntime sampleEvent "%c says" ": %m"
     ⟨[⟨"c", lpLoggerName⟩, ⟨" says", lpText⟩], by decide⟩ (by decide) (by decide)⟩

end appenders
